import Mathlib

/-
Verification of the streaming price-alert system: the alert engine
(alert-manager.js), the price store, symbol resolver, subscription
registry and reconnect logic of the websocket client (deriv-client.js).
Each definition is a shallow embedding of the corresponding source
function; prices are modelled as integers since the source only ever
compares them.
-/

namespace Deriv

/-- An alert rule as stored by the alert manager.  The source field
named repeat is called repeats here because repeat is reserved. -/
structure Alert where
  id : Nat
  symbol : String
  name : String
  condition : String
  price : Int
  enabled : Bool
  repeats : Bool
  triggered : Bool
deriving Repr, DecidableEq

/-- The switch statement of checkAlerts deciding whether one alert
fires on a tick with the given current and previous prices. -/
def conditionMet (a : Alert) (currentPrice previousPrice : Int) : Bool :=
  if a.condition = "above" then
    if currentPrice ≥ a.price ∧ previousPrice < a.price then true
    else if currentPrice ≥ a.price ∧ a.triggered = false then true
    else false
  else if a.condition = "below" then
    if currentPrice ≤ a.price ∧ previousPrice > a.price then true
    else if currentPrice ≤ a.price ∧ a.triggered = false then true
    else false
  else if a.condition = "crosses" then
    if (currentPrice ≥ a.price ∧ previousPrice < a.price) ∨
       (currentPrice ≤ a.price ∧ previousPrice > a.price) then true
    else false
  else false

/-- The continue conditions at the top of the checkAlerts loop. -/
def skipAlert (a : Alert) (symbol : String) : Bool :=
  !a.enabled || a.symbol != symbol || (a.triggered && !a.repeats)

/-- Result of one run of checkAlerts: the updated rule list, the list
of fired rules in iteration order, and how many saveAlerts calls the
run performed. -/
structure CheckResult where
  alerts : List Alert
  fired : List Alert
  saves : Nat
deriving Repr, DecidableEq

/-- checkAlerts from alert-manager.js: iterate the rules, skip the
disabled, mismatched and already-triggered non-repeating ones, fire
the rest according to conditionMet, marking fired rules triggered and
saving after each non-repeating fire. -/
def checkAlerts (alerts : List Alert) (symbol : String)
    (currentPrice previousPrice : Int) : CheckResult :=
  match alerts with
  | [] => ⟨[], [], 0⟩
  | a :: rest =>
    let r := checkAlerts rest symbol currentPrice previousPrice
    if skipAlert a symbol then ⟨a :: r.alerts, r.fired, r.saves⟩
    else if conditionMet a currentPrice previousPrice then
      ⟨{ a with triggered := true } :: r.alerts,
       { a with triggered := true } :: r.fired,
       (if a.repeats then 0 else 1) + r.saves⟩
    else ⟨a :: r.alerts, r.fired, r.saves⟩

/-- A per-symbol price sample as kept in the prices map of the client:
the current and the immediately previous quote. -/
structure Sample where
  current : Int
  previous : Int
deriving Repr, DecidableEq

/-- Lookup in an association list, mirroring Map.get. -/
def mapGet {β : Type} (m : List (String × β)) (k : String) : Option β :=
  match m with
  | [] => none
  | (k0, v) :: rest => if k0 = k then some v else mapGet rest k

/-- Update in an association list, mirroring Map.set: replace the
entry if the key is present, append otherwise. -/
def mapSet {β : Type} (m : List (String × β)) (k : String) (v : β) :
    List (String × β) :=
  match m with
  | [] => [(k, v)]
  | (k0, v0) :: rest =>
    if k0 = k then (k, v) :: rest else (k0, v0) :: mapSet rest k v

/-- Removal from an association list, mirroring Map.delete. -/
def mapDelete {β : Type} (m : List (String × β)) (k : String) :
    List (String × β) :=
  match m with
  | [] => []
  | (k0, v0) :: rest =>
    if k0 = k then rest else (k0, v0) :: mapDelete rest k

/-- The tick branch of the client message handler: read the stored
sample, defaulting both fields to the incoming price on first
observation, store the new sample, and return the value handed to the
registered callback as the previous price. -/
def handleTickMessage (prices : List (String × Sample)) (symbol : String)
    (price : Int) : List (String × Sample) × Int :=
  let prevData :=
    match mapGet prices symbol with
    | some s => s
    | none => { current := price, previous := price }
  (mapSet prices symbol { current := price, previous := prevData.current },
   prevData.current)

/-- The joint state the tick pipeline threads: the price store of the
client and the rule list of the alert manager. -/
structure SystemState where
  prices : List (String × Sample)
  alerts : List Alert
deriving Repr, DecidableEq

/-- One tick through the system: the client updates the price store
and invokes the callback, which runs checkAlerts with the current
price and the stored previous price. -/
def processTick (s : SystemState) (symbol : String) (price : Int) :
    SystemState × List Alert :=
  let t := handleTickMessage s.prices symbol price
  let cr := checkAlerts s.alerts symbol price t.2
  (⟨t.1, cr.alerts⟩, cr.fired)

/-- Number of rules fired at each tick of a sequence of quotes for one
symbol, threading the system state. -/
def firesPerTick (s : SystemState) (symbol : String) (ticks : List Int) :
    List Nat :=
  match ticks with
  | [] => []
  | p :: rest =>
    let r := processTick s symbol p
    r.2.length :: firesPerTick r.1 symbol rest

/-- The SYMBOL_ALIASES table of deriv-client.js, in source order. -/
def SYMBOL_ALIASES : List (String × String) :=
  [("BTC", "cryBTCUSD"), ("BTCUSD", "cryBTCUSD"), ("BITCOIN", "cryBTCUSD"),
   ("ETH", "cryETHUSD"), ("ETHUSD", "cryETHUSD"), ("ETHEREUM", "cryETHUSD"),
   ("XAU", "frxXAUUSD"), ("XAUUSD", "frxXAUUSD"), ("GOLD", "frxXAUUSD"),
   ("XAG", "frxXAGUSD"), ("XAGUSD", "frxXAGUSD"), ("SILVER", "frxXAGUSD"),
   ("XPT", "frxXPTUSD"), ("PLATINUM", "frxXPTUSD"),
   ("XPD", "frxXPDUSD"), ("PALLADIUM", "frxXPDUSD"),
   ("V10", "R_10"), ("V25", "R_25"), ("V50", "R_50"), ("V75", "R_75"),
   ("V100", "R_100"),
   ("VOL10", "R_10"), ("VOL25", "R_25"), ("VOL50", "R_50"), ("VOL75", "R_75"),
   ("VOL100", "R_100")]

/-- Uppercasing as performed by toUpperCase in the source, applied
character by character.  This mirrors String.toUpper of the standard
library but maps over the character list directly so that concrete
instances reduce. -/
def strUpper (s : String) : String := ⟨s.data.map Char.toUpper⟩

/-- First active symbol whose uppercase form equals the given
uppercased input, mirroring the loop over activeSymbols.keys(). -/
def findActive (symbols : List String) (upper : String) : Option String :=
  match symbols with
  | [] => none
  | s :: rest => if strUpper s = upper then some s else findActive rest upper

/-- resolveSymbol from deriv-client.js: uppercase the input, consult
the alias table, then the active symbols case-insensitively, and fall
back to the input itself. -/
def resolveSymbol (activeSymbols : List String) (input : String) : String :=
  let upper := strUpper input
  match mapGet SYMBOL_ALIASES upper with
  | some s => s
  | none =>
    match findActive activeSymbols upper with
    | some s => s
    | none => input

/-- The loop of getAlias: first table entry mapping to the given feed
symbol whose alias is at most four characters long. -/
def findAlias (entries : List (String × String)) (derivSymbol : String) :
    Option String :=
  match entries with
  | [] => none
  | (al, symbol) :: rest =>
    if symbol = derivSymbol ∧ al.length ≤ 4 then some al
    else findAlias rest derivSymbol

/-- getAlias from deriv-client.js: reverse lookup over the alias table. -/
def getAlias (derivSymbol : String) : Option String :=
  findAlias SYMBOL_ALIASES derivSymbol

/-- Alert-manager state outside checkAlerts: the rule list together
with a count of saveAlerts calls, so the theorems can see whether a
mutation persisted anything. -/
structure ManagerState where
  alerts : List Alert
  saves : Nat
deriving Repr, DecidableEq

/-- The helper loop of renumberAlerts: ids are rewritten sequentially
starting at the given value. -/
def renumberList (alerts : List Alert) (n : Nat) : List Alert :=
  match alerts with
  | [] => []
  | a :: rest => { a with id := n } :: renumberList rest (n + 1)

/-- renumberAlerts from alert-manager.js: renumber from 1 and save. -/
def renumberAlerts (s : ManagerState) : ManagerState :=
  ⟨renumberList s.alerts 1, s.saves + 1⟩

/-- The findIndex call of removeAlert. -/
def findAlertIdx (alerts : List Alert) (id : Nat) : Option Nat :=
  match alerts with
  | [] => none
  | a :: rest =>
    if a.id = id then some 0
    else match findAlertIdx rest id with
         | some i => some (i + 1)
         | none => none

/-- removeAlert from alert-manager.js: locate the rule by id; if
present splice it out, renumber (which saves) and return true; if
absent return false leaving the state untouched. -/
def removeAlert (s : ManagerState) (id : Nat) : Bool × ManagerState :=
  match findAlertIdx s.alerts id with
  | some index => (true, renumberAlerts ⟨s.alerts.eraseIdx index, s.saves⟩)
  | none => (false, s)

/-- Subscription-registry state of the client: symbol to subscription
id, symbol to callback (callbacks are modelled as opaque numeric
tokens), and the running request id. -/
structure ClientSubs where
  subscriptions : List (String × Nat)
  callbacks : List (String × Nat)
  reqId : Nat
deriving Repr, DecidableEq

/-- Messages the client sends upstream during subscribe. -/
inductive OutMsg
  | subscribeReq (symbol : String) (reqId : Nat)
deriving Repr, DecidableEq

/-- subscribe from deriv-client.js.  The response argument stands for
the correlated feed reply to the issued request: some id on success,
none when the feed reports an error.  Returns the new state, the list
of upstream messages sent, and whether the returned promise resolved
successfully. -/
def subscribe (s : ClientSubs) (symbol : String) (cb : Nat)
    (response : Option Nat) : ClientSubs × List OutMsg × Bool :=
  if (mapGet s.subscriptions symbol).isSome then
    ({ s with callbacks := mapSet s.callbacks symbol cb }, [], true)
  else
    let newReqId := s.reqId + 1
    match response with
    | none =>
      ({ s with reqId := newReqId }, [OutMsg.subscribeReq symbol newReqId], false)
    | some subId =>
      ({ s with reqId := newReqId,
                subscriptions := mapSet s.subscriptions symbol subId,
                callbacks := mapSet s.callbacks symbol cb },
       [OutMsg.subscribeReq symbol newReqId], true)

/-- Outcome of the resubscription loop in the reconnect handler: final
client state, the symbols for which a subscribe was attempted in
order, and the symbol whose failure aborted the loop, if any. -/
structure ReplayResult where
  client : ClientSubs
  attempted : List String
  failedAt : Option String
deriving Repr, DecidableEq

/-- The resubscription loop of the reconnect handler: for each stored
symbol and callback pair, drop the stale subscription handle and await
subscribe.  The whole loop sits inside one try block, so a rejected
subscribe aborts the remaining iterations. -/
def replaySubscriptions (entries : List (String × Nat)) (s : ClientSubs)
    (response : String → Option Nat) : ReplayResult :=
  match entries with
  | [] => ⟨s, [], none⟩
  | (symbol, cb) :: rest =>
    let s1 := { s with subscriptions := mapDelete s.subscriptions symbol }
    let step := subscribe s1 symbol cb (response symbol)
    if step.2.2 then
      let r := replaySubscriptions rest step.1 response
      ⟨r.client, symbol :: r.attempted, r.failedAt⟩
    else ⟨step.1, [symbol], some symbol⟩

/-- Retry bound of the client. -/
def maxReconnectAttempts : Nat := 10

/-- Connection lifecycle state of the client: whether the socket is
considered connected, whether the ping interval runs, the reconnect
attempt counter, whether a reconnect timer has been scheduled and with
which delay in milliseconds, and whether the process was terminated by
reconnect exhaustion. -/
structure ConnState where
  connected : Bool
  pingActive : Bool
  reconnectAttempts : Nat
  reconnectScheduled : Bool
  scheduledDelay : Option Nat
  fatalExit : Bool
deriving Repr, DecidableEq

/-- attemptReconnect from deriv-client.js: at the bound the process
exits; otherwise the counter is incremented first and the delay is
computed from the incremented counter, then the reconnect timer is
scheduled with that delay. -/
def attemptReconnect (s : ConnState) : ConnState :=
  if s.reconnectAttempts ≥ maxReconnectAttempts then { s with fatalExit := true }
  else
    { s with reconnectAttempts := s.reconnectAttempts + 1,
             reconnectScheduled := true,
             scheduledDelay :=
               some (min (1000 * 2 ^ (s.reconnectAttempts + 1)) 30000) }

/-- The close handler installed in connect: mark disconnected, stop
the ping interval and call attemptReconnect, unconditionally. -/
def handleClose (s : ConnState) : ConnState :=
  attemptReconnect { s with connected := false, pingActive := false }

/-- disconnect from deriv-client.js: stop the ping interval and close
the socket.  Closing the socket makes the transport emit its close
event afterwards, which runs handleClose. -/
def disconnect (s : ConnState) : ConnState :=
  { s with pingActive := false }

/-- A freshly connected client with no reconnect history. -/
def connectedClient : ConnState :=
  { connected := true, pingActive := true, reconnectAttempts := 0,
    reconnectScheduled := false, scheduledDelay := none, fatalExit := false }

/-- A sample above rule used by witnesses. -/
def demoAbove : Alert :=
  { id := 1, symbol := "R_10", name := "ten", condition := "above",
    price := 100, enabled := true, repeats := false, triggered := false }

/-- A sample crosses rule used by witnesses. -/
def demoCrosses : Alert :=
  { id := 1, symbol := "R_25", name := "cross", condition := "crosses",
    price := 100, enabled := true, repeats := false, triggered := false }

/-- A sample manager state used by witnesses. -/
def demoManager : ManagerState := ⟨[demoAbove], 0⟩

/-- A sample registry state used by witnesses. -/
def demoSubs : ClientSubs := ⟨[("R_10", 7)], [("R_10", 1)], 3⟩

/-- A registry with two live symbols, used to exercise replay. -/
def replayDemo : ClientSubs :=
  ⟨[("R_10", 11), ("R_25", 12)], [("R_10", 1), ("R_25", 2)], 5⟩

/-- A feed that rejects the resubscription of R_10 and accepts every
other symbol. -/
def replayDemoResponse : String → Option Nat :=
  fun symbol => if symbol = "R_10" then none else some 99

/-! Helper lemmas about the association-list operations. -/

theorem mapGet_mapSet_self {β : Type} (m : List (String × β)) (k : String)
    (v : β) : mapGet (mapSet m k v) k = some v := by
  induction m with
  | nil => simp [mapSet, mapGet]
  | cons p rest ih =>
    obtain ⟨k0, v0⟩ := p
    by_cases h : k0 = k
    · simp [mapSet, mapGet, h]
    · simp [mapSet, mapGet, h, ih]

theorem mapSet_self {β : Type} (m : List (String × β)) (k : String) (v : β)
    (h : mapGet m k = some v) : mapSet m k v = m := by
  induction m with
  | nil => simp [mapGet] at h
  | cons p rest ih =>
    obtain ⟨k0, v0⟩ := p
    by_cases hk : k0 = k
    · simp only [mapGet, if_pos hk] at h
      injection h with h
      subst h; subst hk
      simp [mapSet]
    · simp only [mapGet, if_neg hk] at h
      simp [mapSet, hk, ih h]

theorem mapGet_eq_none {β : Type} (m : List (String × β)) (k : String)
    (h : k ∉ m.map Prod.fst) : mapGet m k = none := by
  induction m with
  | nil => rfl
  | cons p rest ih =>
    obtain ⟨k0, v0⟩ := p
    simp only [List.map_cons, List.mem_cons] at h
    push_neg at h
    have hne : ¬ k0 = k := fun he => h.1 he.symm
    simp only [mapGet, if_neg hne]
    exact ih h.2

theorem mapDelete_sublist {β : Type} (m : List (String × β)) (k : String) :
    (mapDelete m k).Sublist m := by
  induction m with
  | nil => simp [mapDelete]
  | cons p rest ih =>
    obtain ⟨k0, v0⟩ := p
    by_cases hk : k0 = k
    · simp only [mapDelete, if_pos hk]
      exact List.sublist_cons_self _ _
    · simp only [mapDelete, if_neg hk]
      exact List.Sublist.cons₂ _ ih

theorem nodup_keys_mapDelete {β : Type} (m : List (String × β)) (k : String)
    (h : (m.map Prod.fst).Nodup) : ((mapDelete m k).map Prod.fst).Nodup :=
  ((mapDelete_sublist m k).map Prod.fst).nodup h

theorem mapGet_mapDelete_self {β : Type} (m : List (String × β)) (k : String)
    (h : (m.map Prod.fst).Nodup) : mapGet (mapDelete m k) k = none := by
  induction m with
  | nil => rfl
  | cons p rest ih =>
    obtain ⟨k0, v0⟩ := p
    simp only [List.map_cons, List.nodup_cons] at h
    by_cases hk : k0 = k
    · simp only [mapDelete, if_pos hk]
      exact mapGet_eq_none rest k (hk ▸ h.1)
    · simp only [mapDelete, if_neg hk, mapGet, if_neg hk]
      exact ih h.2

theorem mem_keys_mapSet {β : Type} (m : List (String × β)) (k x : String)
    (v : β) (h : x ∈ (mapSet m k v).map Prod.fst) :
    x ∈ m.map Prod.fst ∨ x = k := by
  induction m with
  | nil =>
    simp [mapSet] at h
    exact Or.inr h
  | cons p rest ih =>
    obtain ⟨k0, v0⟩ := p
    by_cases hk : k0 = k
    · simp only [mapSet, if_pos hk, List.map_cons, List.mem_cons] at h
      rcases h with h | h
      · exact Or.inr h
      · exact Or.inl (by simp [h])
    · simp only [mapSet, if_neg hk, List.map_cons, List.mem_cons] at h
      rcases h with h | h
      · exact Or.inl (by simp [h])
      · rcases ih h with h1 | h1
        · exact Or.inl (by simp [h1])
        · exact Or.inr h1

theorem nodup_keys_mapSet {β : Type} (m : List (String × β)) (k : String)
    (v : β) (h : (m.map Prod.fst).Nodup) :
    ((mapSet m k v).map Prod.fst).Nodup := by
  induction m with
  | nil => simp [mapSet]
  | cons p rest ih =>
    obtain ⟨k0, v0⟩ := p
    simp only [List.map_cons, List.nodup_cons] at h
    by_cases hk : k0 = k
    · simp only [mapSet, if_pos hk, List.map_cons, List.nodup_cons]
      exact ⟨hk ▸ h.1, h.2⟩
    · simp only [mapSet, if_neg hk, List.map_cons, List.nodup_cons]
      refine ⟨?_, ih h.2⟩
      intro hx
      rcases mem_keys_mapSet rest k k0 v hx with h1 | h1
      · exact h.1 h1
      · exact hk h1

theorem findAlertIdx_isSome_iff (alerts : List Alert) (id : Nat) :
    (findAlertIdx alerts id).isSome = true ↔ ∃ a ∈ alerts, a.id = id := by
  induction alerts with
  | nil => simp [findAlertIdx]
  | cons a rest ih =>
    by_cases h : a.id = id
    · simp [findAlertIdx, h]
    · have heq : (findAlertIdx (a :: rest) id).isSome
          = (findAlertIdx rest id).isSome := by
        simp only [findAlertIdx, if_neg h]
        cases findAlertIdx rest id <;> rfl
      rw [heq, ih]
      constructor
      · rintro ⟨x, hx, hxid⟩
        exact ⟨x, List.mem_cons_of_mem _ hx, hxid⟩
      · rintro ⟨x, hx, hxid⟩
        rcases List.mem_cons.mp hx with rfl | hx1
        · exact absurd hxid h
        · exact ⟨x, hx1, hxid⟩

/-- C10: removeAlert returns true exactly when a rule with the given id
exists; when no such rule exists it returns false and leaves the rule
list, the numbering and the save count completely untouched. -/
theorem removeAlert_spec (s : ManagerState) (id : Nat) :
    ((removeAlert s id).1 = true ↔ ∃ a ∈ s.alerts, a.id = id)
    ∧ ((∀ a ∈ s.alerts, a.id ≠ id) → removeAlert s id = (false, s)) := by
  constructor
  · rw [← findAlertIdx_isSome_iff s.alerts id]
    unfold removeAlert
    cases h : findAlertIdx s.alerts id <;> simp
  · intro hnone
    have hno : ¬ (findAlertIdx s.alerts id).isSome = true := by
      rw [findAlertIdx_isSome_iff]
      rintro ⟨a, ha, haid⟩
      exact hnone a ha haid
    unfold removeAlert
    cases h : findAlertIdx s.alerts id with
    | some i => rw [h] at hno; simp at hno
    | none => rfl

/-- Witness for C10 at a concrete state: id 2 is absent, so removal
reports false and changes nothing. -/
theorem removeAlert_spec_witness :
    ((removeAlert demoManager 2).1 = true ↔ ∃ a ∈ demoManager.alerts, a.id = 2)
    ∧ removeAlert demoManager 2 = (false, demoManager) := by
  have h := removeAlert_spec demoManager 2
  exact ⟨h.1, h.2 (by decide)⟩

/-- C8: a subscribe call for a symbol already present in the registry
replaces the stored callback, resolves successfully, sends nothing
upstream and leaves the subscription map unchanged, so no duplicate
upstream subscription is created. -/
theorem subscribe_idempotent (s : ClientSubs) (symbol : String) (cb : Nat)
    (response : Option Nat)
    (h : (mapGet s.subscriptions symbol).isSome = true) :
    subscribe s symbol cb response
      = ({ s with callbacks := mapSet s.callbacks symbol cb }, [], true)
    ∧ (subscribe s symbol cb response).1.subscriptions = s.subscriptions
    ∧ (subscribe s symbol cb response).2.1 = []
    ∧ mapGet (subscribe s symbol cb response).1.callbacks symbol = some cb := by
  have he : subscribe s symbol cb response
      = ({ s with callbacks := mapSet s.callbacks symbol cb }, [], true) := by
    unfold subscribe
    rw [if_pos h]
  refine ⟨he, ?_, ?_, ?_⟩ <;> rw [he]
  exact mapGet_mapSet_self s.callbacks symbol cb

/-- Witness for C8 at a concrete registry already holding R_10. -/
theorem subscribe_idempotent_witness :
    subscribe demoSubs "R_10" 2 (some 99)
      = ({ demoSubs with callbacks := mapSet demoSubs.callbacks "R_10" 2 },
         [], true)
    ∧ mapGet (subscribe demoSubs "R_10" 2 (some 99)).1.callbacks "R_10"
      = some 2 := by
  have h := subscribe_idempotent demoSubs "R_10" 2 (some 99) (by decide)
  exact ⟨h.1, h.2.2.2⟩

/-- C2: the code contradicts the claim.  After an operator calls
disconnect on a freshly connected client, the transport still emits
its close event, whose handler unconditionally runs the reconnect
logic: a reconnect is scheduled, 2000 ms out. -/
theorem disconnect_then_close_schedules_reconnect :
    (handleClose (disconnect connectedClient)).reconnectScheduled = true
    ∧ (handleClose (disconnect connectedClient)).scheduledDelay
      = some 2000 := by
  decide

/-- C4 counterexample: from a fresh connection the first reconnect is
scheduled 2000 ms out, because the attempt counter is incremented
before the delay is computed, not 1000 ms as the claim derives. -/
theorem attemptReconnect_first_delay_counterexample :
    (attemptReconnect connectedClient).scheduledDelay = some 2000
    ∧ (2000 : Nat) ≠ 1000 := by
  decide

/-- C4 amended: below the retry bound the counter is incremented
before the delay is computed, so the scheduled delay equals
min(1000 * 2 ^ (attempt + 1), 30000) for the pre-call counter value,
the counter grows by one, and every scheduled delay is capped at
30000 ms. -/
theorem attemptReconnect_delay (s : ConnState)
    (h : s.reconnectAttempts < maxReconnectAttempts) :
    (attemptReconnect s).scheduledDelay
      = some (min (1000 * 2 ^ (s.reconnectAttempts + 1)) 30000)
    ∧ (attemptReconnect s).reconnectAttempts = s.reconnectAttempts + 1
    ∧ ∀ d, (attemptReconnect s).scheduledDelay = some d → d ≤ 30000 := by
  have hlt : ¬ s.reconnectAttempts ≥ maxReconnectAttempts := Nat.not_le.mpr h
  refine ⟨by simp [attemptReconnect, hlt], by simp [attemptReconnect, hlt], ?_⟩
  intro d hd
  simp [attemptReconnect, hlt] at hd
  omega

/-- Witness for C4 amended at the fresh connection state. -/
theorem attemptReconnect_delay_witness :
    (attemptReconnect connectedClient).scheduledDelay
      = some (min (1000 * 2 ^ (connectedClient.reconnectAttempts + 1)) 30000)
    ∧ (attemptReconnect connectedClient).reconnectAttempts
      = connectedClient.reconnectAttempts + 1 := by
  have h := attemptReconnect_delay connectedClient (by decide)
  exact ⟨h.1, h.2.1⟩

/-- C7 counterexample: the input zzz is no alias and matches no active
symbol, and resolveSymbol returns it as typed rather than its
uppercase form, contradicting the claim. -/
theorem resolveSymbol_fallback_counterexample :
    resolveSymbol [] "zzz" = "zzz"
    ∧ resolveSymbol [] "zzz" ≠ strUpper "zzz" := by
  constructor
  · rfl
  · decide

/-- C7 amended: resolution uppercases the input for lookup only; an
alias-table hit returns the mapped symbol, otherwise the first
case-insensitive match among the active symbols is returned in its
canonical casing, otherwise the original input is returned unchanged,
in its original casing. -/
theorem resolveSymbol_spec (activeSymbols : List String) (input : String) :
    (∀ s, mapGet SYMBOL_ALIASES (strUpper input) = some s →
      resolveSymbol activeSymbols input = s)
    ∧ (mapGet SYMBOL_ALIASES (strUpper input) = none →
      ∀ c, findActive activeSymbols (strUpper input) = some c →
        resolveSymbol activeSymbols input = c)
    ∧ (mapGet SYMBOL_ALIASES (strUpper input) = none →
      findActive activeSymbols (strUpper input) = none →
      resolveSymbol activeSymbols input = input) := by
  refine ⟨?_, ?_, ?_⟩
  · intro s hs
    simp [resolveSymbol, hs]
  · intro h c hc
    simp [resolveSymbol, h, hc]
  · intro h hf
    simp [resolveSymbol, h, hf]

/-- Witness for C7: one input through each branch of resolution. -/
theorem resolveSymbol_spec_witness :
    resolveSymbol [] "gold" = "frxXAUUSD"
    ∧ resolveSymbol ["1HZ100V"] "1hz100v" = "1HZ100V"
    ∧ resolveSymbol [] "zz" = "zz" := by
  refine ⟨(resolveSymbol_spec [] "gold").1 "frxXAUUSD" (by decide),
          (resolveSymbol_spec ["1HZ100V"] "1hz100v").2.1 (by decide)
            "1HZ100V" (by decide),
          (resolveSymbol_spec [] "zz").2.2 (by decide) (by decide)⟩

/-- C5: price-sample invariant of the tick handler.  On the first
observed tick the stored sample has previous equal to current equal to
the price, and the callback receives that price as previous; on every
later tick the stored sample has previous equal to the old current and
current equal to the new price, and the callback receives the old
current as the previous price. -/
theorem handleTickMessage_invariant (prices : List (String × Sample))
    (symbol : String) (p : Int) :
    (mapGet prices symbol = none →
      mapGet (handleTickMessage prices symbol p).1 symbol
        = some { current := p, previous := p }
      ∧ (handleTickMessage prices symbol p).2 = p)
    ∧ (∀ s0, mapGet prices symbol = some s0 →
      mapGet (handleTickMessage prices symbol p).1 symbol
        = some { current := p, previous := s0.current }
      ∧ (handleTickMessage prices symbol p).2 = s0.current) := by
  constructor
  · intro h
    constructor
    · simp only [handleTickMessage, h]
      exact mapGet_mapSet_self prices symbol _
    · simp [handleTickMessage, h]
  · intro s0 h
    constructor
    · simp only [handleTickMessage, h]
      exact mapGet_mapSet_self prices symbol _
    · simp [handleTickMessage, h]

/-- Witness for C5: a fresh symbol at price 5, then a second tick 7. -/
theorem handleTickMessage_invariant_witness :
    (mapGet (handleTickMessage [] "R_10" 5).1 "R_10"
        = some { current := 5, previous := 5 }
      ∧ (handleTickMessage [] "R_10" 5).2 = 5)
    ∧ (mapGet (handleTickMessage [("R_10", { current := 5, previous := 5 })]
          "R_10" 7).1 "R_10"
        = some { current := 7, previous := 5 }
      ∧ (handleTickMessage [("R_10", { current := 5, previous := 5 })]
          "R_10" 7).2 = 5) := by
  refine ⟨(handleTickMessage_invariant [] "R_10" 5).1 (by decide), ?_⟩
  exact (handleTickMessage_invariant [("R_10", ⟨5, 5⟩)] "R_10" 7).2
    ⟨5, 5⟩ (by decide)

theorem findAlias_mem (entries : List (String × String)) (d a : String)
    (h : findAlias entries d = some a) :
    ∃ p ∈ entries, p.1 = a ∧ p.2 = d ∧ a.length ≤ 4 := by
  induction entries with
  | nil => simp [findAlias] at h
  | cons p rest ih =>
    obtain ⟨al, symbol⟩ := p
    by_cases hc : symbol = d ∧ al.length ≤ 4
    · simp only [findAlias, if_pos hc] at h
      injection h with h2
      subst h2
      exact ⟨(al, symbol), List.mem_cons_self _ _, rfl, hc.1, hc.2⟩
    · simp only [findAlias, if_neg hc] at h
      obtain ⟨q, hq, hqa⟩ := ih h
      exact ⟨q, List.mem_cons_of_mem _ hq, hqa⟩

/-- Every alias key in the table is already uppercase and looks up to
the value stored with it, because the keys are pairwise distinct. -/
theorem aliasTable_keys_fixed :
    ∀ p ∈ SYMBOL_ALIASES,
      strUpper p.1 = p.1 ∧ mapGet SYMBOL_ALIASES p.1 = some p.2 := by
  decide

/-- C9: whenever getAlias returns an alias it is at most four
characters long and resolveSymbol maps it back to the same feed
symbol whatever the active-symbol set is, and getAlias is a pure
function of its argument, hence deterministic across calls. -/
theorem getAlias_roundtrip (derivSymbol a : String)
    (h : getAlias derivSymbol = some a) :
    a.length ≤ 4
    ∧ (∀ activeSymbols, resolveSymbol activeSymbols a = derivSymbol)
    ∧ getAlias derivSymbol = getAlias derivSymbol := by
  obtain ⟨p, hp, hpa, hpd, hlen⟩ :=
    findAlias_mem SYMBOL_ALIASES derivSymbol a h
  obtain ⟨hupper, hget⟩ := aliasTable_keys_fixed p hp
  refine ⟨hlen, ?_, rfl⟩
  intro activeSymbols
  have h1 : strUpper a = a := by rw [← hpa]; exact hupper
  have h2 : mapGet SYMBOL_ALIASES a = some derivSymbol := by
    rw [← hpa, ← hpd]; exact hget
  simp [resolveSymbol, h1, h2]

/-- Witness for C9: BTC is the alias of cryBTCUSD and resolves back. -/
theorem getAlias_roundtrip_witness :
    ("BTC" : String).length ≤ 4
    ∧ resolveSymbol [] "BTC" = "cryBTCUSD" := by
  have h := getAlias_roundtrip "cryBTCUSD" "BTC" (by decide)
  exact ⟨h.1, h.2.1 []⟩

/-- A rule that is enabled, matches the tick symbol and is not an
already-triggered non-repeating rule is not skipped. -/
theorem skipAlert_false (a : Alert) (he : a.enabled = true)
    (hskip : ¬(a.triggered = true ∧ a.repeats = false)) :
    skipAlert a a.symbol = false := by
  simp only [skipAlert, he, Bool.not_true, Bool.false_or, bne_self_eq_false]
  cases ht : a.triggered <;> cases hr : a.repeats <;> simp_all

/-- The above branch of the condition switch as a single predicate. -/
theorem conditionMet_above (a : Alert) (cur prev : Int)
    (hc : a.condition = "above") :
    conditionMet a cur prev
      = decide ((cur ≥ a.price ∧ prev < a.price)
          ∨ (cur ≥ a.price ∧ a.triggered = false)) := by
  simp only [conditionMet, hc, if_pos rfl]
  by_cases h1 : cur ≥ a.price ∧ prev < a.price
  · simp [h1]
  · by_cases h2 : cur ≥ a.price ∧ a.triggered = false
    · simp [h1, h2]
    · simp [h1, h2]

/-- The crosses branch of the condition switch as a single predicate. -/
theorem conditionMet_crosses (a : Alert) (cur prev : Int)
    (hc : a.condition = "crosses") :
    conditionMet a cur prev
      = decide ((cur ≥ a.price ∧ prev < a.price)
          ∨ (cur ≤ a.price ∧ prev > a.price)) := by
  have hab : ¬ a.condition = "above" := by rw [hc]; decide
  have hbe : ¬ a.condition = "below" := by rw [hc]; decide
  simp only [conditionMet, if_neg hab, if_neg hbe, hc, if_pos rfl]
  by_cases h : (cur ≥ a.price ∧ prev < a.price)
      ∨ (cur ≤ a.price ∧ prev > a.price)
  · simp [h]
  · simp [h]

/-- C1: for an enabled, symbol-matching above rule that is not an
already-triggered non-repeating rule, checkAlerts fires it exactly
when the price newly reached the target or the rule was never checked
while at or beyond the target, marking it triggered and prepending it
to the fired list; consequently tick sequence [T-1, T+1] on a fresh
symbol fires it exactly once, at the second tick, and the single tick
[T+1] on first observation fires it immediately. -/
theorem checkAlerts_above_spec (a : Alert) (rest : List Alert)
    (cur prev T : Int)
    (hc : a.condition = "above") (he : a.enabled = true)
    (hskip : ¬(a.triggered = true ∧ a.repeats = false))
    (hT : a.price = T) :
    (((cur ≥ T ∧ prev < T) ∨ (cur ≥ T ∧ a.triggered = false)) →
      (checkAlerts (a :: rest) a.symbol cur prev).fired
        = { a with triggered := true }
            :: (checkAlerts rest a.symbol cur prev).fired
      ∧ (checkAlerts (a :: rest) a.symbol cur prev).alerts
        = { a with triggered := true }
            :: (checkAlerts rest a.symbol cur prev).alerts)
    ∧ (¬((cur ≥ T ∧ prev < T) ∨ (cur ≥ T ∧ a.triggered = false)) →
      (checkAlerts (a :: rest) a.symbol cur prev).fired
        = (checkAlerts rest a.symbol cur prev).fired
      ∧ (checkAlerts (a :: rest) a.symbol cur prev).alerts
        = a :: (checkAlerts rest a.symbol cur prev).alerts)
    ∧ (a.triggered = false →
      firesPerTick ⟨[], [a]⟩ a.symbol [T - 1, T + 1] = [0, 1]
      ∧ firesPerTick ⟨[], [a]⟩ a.symbol [T + 1] = [1]) := by
  subst hT
  have hskipf := skipAlert_false a he hskip
  refine ⟨?_, ?_, ?_⟩
  · intro hfire
    have hct : conditionMet a cur prev = true := by
      rw [conditionMet_above a cur prev hc]
      exact decide_eq_true hfire
    constructor <;> simp [checkAlerts, hskipf, hct]
  · intro hnf
    have hcf : conditionMet a cur prev = false := by
      rw [conditionMet_above a cur prev hc]
      exact decide_eq_false hnf
    constructor <;> simp [checkAlerts, hskipf, hcf]
  · intro htrig
    have e1 : conditionMet a (a.price - 1) (a.price - 1) = false := by
      rw [conditionMet_above a _ _ hc]
      apply decide_eq_false
      rintro (⟨h1, h2⟩ | ⟨h1, h2⟩) <;> omega
    have e2 : conditionMet a (a.price + 1) (a.price - 1) = true := by
      rw [conditionMet_above a _ _ hc]
      exact decide_eq_true (Or.inl ⟨by omega, by omega⟩)
    have e3 : conditionMet a (a.price + 1) (a.price + 1) = true := by
      rw [conditionMet_above a _ _ hc]
      exact decide_eq_true (Or.inr ⟨by omega, htrig⟩)
    constructor
    · simp [firesPerTick, processTick, handleTickMessage, mapGet, mapSet,
            checkAlerts, hskipf, e1, e2]
    · simp [firesPerTick, processTick, handleTickMessage, mapGet, mapSet,
            checkAlerts, hskipf, e3]

/-- Witness for C1 at a concrete above rule with target 100. -/
theorem checkAlerts_above_spec_witness :
    ((checkAlerts [demoAbove] demoAbove.symbol 101 99).fired
      = [{ demoAbove with triggered := true }])
    ∧ firesPerTick ⟨[], [demoAbove]⟩ demoAbove.symbol [100 - 1, 100 + 1]
      = [0, 1]
    ∧ firesPerTick ⟨[], [demoAbove]⟩ demoAbove.symbol [100 + 1] = [1] := by
  have h := checkAlerts_above_spec demoAbove [] 101 99 100 rfl rfl
    (by decide) rfl
  have hseq := h.2.2 rfl
  refine ⟨?_, hseq.1, hseq.2⟩
  have hf := (h.1 (Or.inl ⟨by norm_num, by norm_num⟩)).1
  simpa [checkAlerts] using hf

/-- C6: a crosses rule fires exactly on a crossing in either
direction, with no first-observation exemption; a non-repeating
crosses rule whose stored price was last seen below the target fires
once on the first tick of [T+1, T+1] and does not re-fire on the
second; and a crosses rule created while the symbol is first observed
at or beyond the target does not fire at all until a directional
crossing is observed. -/
theorem checkAlerts_crosses_spec (a : Alert) (rest : List Alert)
    (cur prev T p0 q : Int)
    (hc : a.condition = "crosses") (he : a.enabled = true)
    (hskip : ¬(a.triggered = true ∧ a.repeats = false))
    (hT : a.price = T) :
    (((cur ≥ T ∧ prev < T) ∨ (cur ≤ T ∧ prev > T)) →
      (checkAlerts (a :: rest) a.symbol cur prev).fired
        = { a with triggered := true }
            :: (checkAlerts rest a.symbol cur prev).fired
      ∧ (checkAlerts (a :: rest) a.symbol cur prev).alerts
        = { a with triggered := true }
            :: (checkAlerts rest a.symbol cur prev).alerts)
    ∧ (¬((cur ≥ T ∧ prev < T) ∨ (cur ≤ T ∧ prev > T)) →
      (checkAlerts (a :: rest) a.symbol cur prev).fired
        = (checkAlerts rest a.symbol cur prev).fired
      ∧ (checkAlerts (a :: rest) a.symbol cur prev).alerts
        = a :: (checkAlerts rest a.symbol cur prev).alerts)
    ∧ (a.triggered = false → a.repeats = false → p0 < T →
      firesPerTick ⟨[(a.symbol, { current := p0, previous := q })], [a]⟩
        a.symbol [T + 1, T + 1] = [1, 0])
    ∧ (a.triggered = false →
      firesPerTick ⟨[], [a]⟩ a.symbol [T + 1, T + 1] = [0, 0]
      ∧ firesPerTick ⟨[], [a]⟩ a.symbol [T] = [0]) := by
  subst hT
  have hskipf := skipAlert_false a he hskip
  refine ⟨?_, ?_, ?_, ?_⟩
  · intro hfire
    have hct : conditionMet a cur prev = true := by
      rw [conditionMet_crosses a cur prev hc]
      exact decide_eq_true hfire
    constructor <;> simp [checkAlerts, hskipf, hct]
  · intro hnf
    have hcf : conditionMet a cur prev = false := by
      rw [conditionMet_crosses a cur prev hc]
      exact decide_eq_false hnf
    constructor <;> simp [checkAlerts, hskipf, hcf]
  · intro htrig hrep hp0
    have e1 : conditionMet a (a.price + 1) p0 = true := by
      rw [conditionMet_crosses a _ _ hc]
      exact decide_eq_true (Or.inl ⟨by omega, by omega⟩)
    have hskipt : skipAlert { a with triggered := true } a.symbol = true := by
      simp [skipAlert, hrep]
    simp [firesPerTick, processTick, handleTickMessage, mapGet, mapSet,
          checkAlerts, hskipf, hskipt, e1]
  · intro htrig
    have e2 : conditionMet a (a.price + 1) (a.price + 1) = false := by
      rw [conditionMet_crosses a _ _ hc]
      apply decide_eq_false
      rintro (⟨h1, h2⟩ | ⟨h1, h2⟩) <;> omega
    have e3 : conditionMet a a.price a.price = false := by
      rw [conditionMet_crosses a _ _ hc]
      apply decide_eq_false
      rintro (⟨h1, h2⟩ | ⟨h1, h2⟩) <;> omega
    constructor
    · simp [firesPerTick, processTick, handleTickMessage, mapGet, mapSet,
            checkAlerts, hskipf, e2]
    · simp [firesPerTick, processTick, handleTickMessage, mapGet, mapSet,
            checkAlerts, hskipf, e3]

/-- Witness for C6 at a concrete crosses rule with target 100. -/
theorem checkAlerts_crosses_spec_witness :
    ((checkAlerts [demoCrosses] demoCrosses.symbol 101 99).fired
      = [{ demoCrosses with triggered := true }])
    ∧ firesPerTick
        ⟨[(demoCrosses.symbol, { current := 99, previous := 99 })],
         [demoCrosses]⟩
        demoCrosses.symbol [100 + 1, 100 + 1] = [1, 0]
    ∧ firesPerTick ⟨[], [demoCrosses]⟩ demoCrosses.symbol [100 + 1, 100 + 1]
      = [0, 0] := by
  have h := checkAlerts_crosses_spec demoCrosses [] 101 99 100 99 99 rfl rfl
    (by decide) rfl
  refine ⟨?_, h.2.2.1 rfl rfl (by norm_num), (h.2.2.2 rfl).1⟩
  have hf := (h.1 (Or.inl ⟨by norm_num, by norm_num⟩)).1
  simpa [checkAlerts] using hf

/-- A subscribe call whose correlated response is a success resolves
successfully, whether or not the symbol was already registered. -/
theorem subscribe_success (s : ClientSubs) (symbol : String) (cb : Nat)
    (response : Option Nat) (h : response.isSome = true) :
    (subscribe s symbol cb response).2.2 = true := by
  unfold subscribe
  by_cases hsub : (mapGet s.subscriptions symbol).isSome = true
  · rw [if_pos hsub]
  · rw [if_neg hsub]
    obtain ⟨i, hi⟩ := Option.isSome_iff_exists.mp h
    rw [hi]

/-- subscribe reinstates exactly the stored callback binding: when the
callback passed in is the one already stored, the callback map is
unchanged in every branch. -/
theorem subscribe_callbacks (s : ClientSubs) (symbol : String) (cb : Nat)
    (response : Option Nat) (h : mapGet s.callbacks symbol = some cb) :
    (subscribe s symbol cb response).1.callbacks = s.callbacks := by
  unfold subscribe
  by_cases hsub : (mapGet s.subscriptions symbol).isSome = true
  · rw [if_pos hsub]
    exact mapSet_self _ _ _ h
  · rw [if_neg hsub]
    cases response with
    | none => rfl
    | some i => exact mapSet_self _ _ _ h

/-- subscribe keeps the subscription keys pairwise distinct. -/
theorem subscribe_nodup (s : ClientSubs) (symbol : String) (cb : Nat)
    (response : Option Nat)
    (h : (s.subscriptions.map Prod.fst).Nodup) :
    (((subscribe s symbol cb response).1.subscriptions).map
      Prod.fst).Nodup := by
  unfold subscribe
  by_cases hsub : (mapGet s.subscriptions symbol).isSome = true
  · rw [if_pos hsub]; exact h
  · rw [if_neg hsub]
    cases response with
    | none => exact h
    | some i => exact nodup_keys_mapSet _ _ _ h

/-- When every resubscription succeeds, replay attempts exactly the
registered symbols in order and reports no failure. -/
theorem replay_all_success (entries : List (String × Nat)) (s : ClientSubs)
    (response : String → Option Nat)
    (h : ∀ symbol ∈ entries.map Prod.fst, (response symbol).isSome = true) :
    (replaySubscriptions entries s response).attempted
      = entries.map Prod.fst
    ∧ (replaySubscriptions entries s response).failedAt = none := by
  induction entries generalizing s with
  | nil => exact ⟨rfl, rfl⟩
  | cons p rest ih =>
    obtain ⟨symbol, cb⟩ := p
    have hresp : (response symbol).isSome = true := h symbol (by simp)
    have hsucc := subscribe_success
      { s with subscriptions := mapDelete s.subscriptions symbol }
      symbol cb (response symbol) hresp
    have ihr := ih
      (subscribe { s with subscriptions := mapDelete s.subscriptions symbol }
        symbol cb (response symbol)).1
      (fun sym hsym => h sym (by simp [hsym]))
    simp only [replaySubscriptions, hsucc, if_true, List.map_cons]
    exact ⟨by rw [ihr.1], ihr.2⟩

/-- Replay passes each stored callback back to subscribe, so the
callback bindings survive the replay no matter what the feed
answers. -/
theorem replay_preserves_callbacks (entries : List (String × Nat))
    (s : ClientSubs) (response : String → Option Nat)
    (h : ∀ p ∈ entries, mapGet s.callbacks p.1 = some p.2) :
    (replaySubscriptions entries s response).client.callbacks
      = s.callbacks := by
  induction entries generalizing s with
  | nil => rfl
  | cons p rest ih =>
    obtain ⟨symbol, cb⟩ := p
    have hcb : mapGet s.callbacks symbol = some cb :=
      h (symbol, cb) (by simp)
    have hstep := subscribe_callbacks
      { s with subscriptions := mapDelete s.subscriptions symbol }
      symbol cb (response symbol) hcb
    have hrest : ∀ q ∈ rest,
        mapGet (subscribe
          { s with subscriptions := mapDelete s.subscriptions symbol }
          symbol cb (response symbol)).1.callbacks q.1 = some q.2 := by
      intro q hq
      rw [hstep]
      exact h q (List.mem_cons_of_mem _ hq)
    cases hok : (subscribe
        { s with subscriptions := mapDelete s.subscriptions symbol }
        symbol cb (response symbol)).2.2 with
    | true =>
      have ihr := ih _ hrest
      simp only [replaySubscriptions, hok, if_true]
      rw [ihr, hstep]
    | false =>
      simp only [replaySubscriptions, hok, Bool.false_eq_true, if_false]
      rw [hstep]

/-- A rejected resubscription aborts the replay: the symbols before
the failing one are attempted in order, the failing one is attempted
and recorded, and nothing after it is attempted. -/
theorem replay_abort (e1 : List (String × Nat)) (symbol : String) (cb : Nat)
    (e2 : List (String × Nat)) (s : ClientSubs)
    (response : String → Option Nat)
    (hnd : (s.subscriptions.map Prod.fst).Nodup)
    (h1 : ∀ sym ∈ e1.map Prod.fst, (response sym).isSome = true)
    (hfail : response symbol = none) :
    (replaySubscriptions (e1 ++ (symbol, cb) :: e2) s response).attempted
      = e1.map Prod.fst ++ [symbol]
    ∧ (replaySubscriptions (e1 ++ (symbol, cb) :: e2) s response).failedAt
      = some symbol := by
  induction e1 generalizing s with
  | nil =>
    have hnone : mapGet (mapDelete s.subscriptions symbol) symbol = none :=
      mapGet_mapDelete_self _ _ hnd
    have hfailstep : (subscribe
        { s with subscriptions := mapDelete s.subscriptions symbol }
        symbol cb (response symbol)).2.2 = false := by
      unfold subscribe
      rw [if_neg (by simp [hnone]), hfail]
    simp only [List.nil_append, replaySubscriptions, hfailstep,
      Bool.false_eq_true, if_false, List.map_nil]
    exact ⟨trivial, trivial⟩
  | cons p rest ih =>
    obtain ⟨sym0, cb0⟩ := p
    have hresp : (response sym0).isSome = true := h1 sym0 (by simp)
    have hsucc := subscribe_success
      { s with subscriptions := mapDelete s.subscriptions sym0 }
      sym0 cb0 (response sym0) hresp
    have hnd1 : ((mapDelete s.subscriptions sym0).map Prod.fst).Nodup :=
      nodup_keys_mapDelete _ _ hnd
    have hnd2 := subscribe_nodup
      { s with subscriptions := mapDelete s.subscriptions sym0 }
      sym0 cb0 (response sym0) hnd1
    have ihr := ih
      (subscribe { s with subscriptions := mapDelete s.subscriptions sym0 }
        sym0 cb0 (response sym0)).1
      hnd2 (fun sym hsym => h1 sym (by simp [hsym]))
    simp only [List.cons_append, replaySubscriptions, hsucc, if_true,
      List.map_cons]
    exact ⟨congrArg (List.cons sym0) ihr.1, ihr.2⟩

/-- C3 counterexample: two symbols are registered, the feed rejects
the resubscription of the first, and the replay then never attempts
the second symbol: the failure aborts the remaining replay, against
the claim. -/
theorem replay_abort_counterexample :
    (replaySubscriptions replayDemo.callbacks replayDemo
        replayDemoResponse).attempted = ["R_10"]
    ∧ "R_25" ∈ replayDemo.callbacks.map Prod.fst
    ∧ "R_25" ∉ (replaySubscriptions replayDemo.callbacks replayDemo
        replayDemoResponse).attempted := by
  decide

/-- C3 amended: replay attempts each previously-registered symbol in
order with its original callback binding, and the bindings are
preserved; when every resubscription succeeds the whole registered set
is replayed, but a subscribe failure for one symbol is caught at the
reconnect level and aborts the replay of the remaining symbols,
leaving them unattempted. -/
theorem replaySubscriptions_spec (entries : List (String × Nat))
    (s : ClientSubs) (response : String → Option Nat) :
    ((∀ symbol ∈ entries.map Prod.fst, (response symbol).isSome = true) →
      (replaySubscriptions entries s response).attempted
        = entries.map Prod.fst
      ∧ (replaySubscriptions entries s response).failedAt = none)
    ∧ ((∀ p ∈ entries, mapGet s.callbacks p.1 = some p.2) →
      (replaySubscriptions entries s response).client.callbacks
        = s.callbacks)
    ∧ (∀ e1 symbol cb e2, entries = e1 ++ (symbol, cb) :: e2 →
      (s.subscriptions.map Prod.fst).Nodup →
      (∀ sym ∈ e1.map Prod.fst, (response sym).isSome = true) →
      response symbol = none →
      (replaySubscriptions entries s response).attempted
        = e1.map Prod.fst ++ [symbol]
      ∧ (replaySubscriptions entries s response).failedAt
        = some symbol) := by
  refine ⟨replay_all_success entries s response,
          replay_preserves_callbacks entries s response, ?_⟩
  intro e1 symbol cb e2 heq hnd h1 hfail
  subst heq
  exact replay_abort e1 symbol cb e2 s response hnd h1 hfail

/-- Witness for C3 amended: the two-symbol registry replayed against a
fully successful feed and against a feed rejecting the first symbol. -/
theorem replaySubscriptions_spec_witness :
    (replaySubscriptions replayDemo.callbacks replayDemo
        (fun _ => some 42)).attempted = ["R_10", "R_25"]
    ∧ (replaySubscriptions replayDemo.callbacks replayDemo
        (fun _ => some 42)).client.callbacks = replayDemo.callbacks
    ∧ (replaySubscriptions replayDemo.callbacks replayDemo
        replayDemoResponse).failedAt = some "R_10" := by
  have hall := replaySubscriptions_spec replayDemo.callbacks replayDemo
    (fun _ => some 42)
  have hbad := replaySubscriptions_spec replayDemo.callbacks replayDemo
    replayDemoResponse
  refine ⟨?_, hall.2.1 (by decide), ?_⟩
  · rw [(hall.1 (by decide)).1]; decide
  · exact (hbad.2.2 [] "R_10" 1 [("R_25", 2)] (by decide) (by decide)
      (by decide) (by decide)).2

end Deriv
